import Mathlib

/-!
Verification of the distributed training script `train.py` of
RobustFoodDetector against its natural-language specification.

Modelling conventions:
* Tensors of logits are `List (List ℚ)` (one inner list of per-class
  logits per example); scalars are `ℚ`.
* `torch.logsumexp(·, dim=1)` is transcendental, so the per-row
  log-sum-exp is abstracted as a function parameter `L : List ℚ → ℚ`
  applied row-wise; both the code-side and spec-side definitions use the
  same `L`, exactly as both apply the same `torch.logsumexp`.
  (On a one-class row `[x]`, the true log-sum-exp is `log (exp x) = x`,
  so concrete instantiations with `L := List.sum` on singleton rows
  agree with the real operator.)
* File names are `List Char`; Python's `str.rsplit('.')` is modelled by
  an explicit character-list split.
* The epoch/checkpoint control flow of `main` is modelled as the trace
  of observable events (evaluate, save, optimizer step, metric write,
  exit) the run emits.
-/

/-- `nn.functional.relu` on a scalar. -/
def relu (x : ℚ) : ℚ := max x 0

/-- `.mean()` of a 1-D tensor (empty mean is 0 in this model; the code
never takes an empty mean on the inputs the claims quantify over). -/
def listMean (xs : List ℚ) : ℚ := xs.sum / xs.length

/-- Energy regularization term of `train.py` lines 183–185:
`Ec_out = -logsumexp(outputs[k:])`, `Ec_in = -logsumexp(outputs[:k])`,
term `= 0.1*(pow(relu(Ec_in-(-25)),2).mean() + pow(relu((-7)-Ec_out),2).mean())`. -/
def energyReg (outputs : List (List ℚ)) (L : List ℚ → ℚ) (k : ℕ) : ℚ :=
  let ecOut := ((outputs.drop k).map L).map (fun l => -l)
  let ecIn := ((outputs.take k).map L).map (fun l => -l)
  (1/10) * (listMean (ecIn.map (fun e => relu (e - (-25)) ^ 2))
    + listMean (ecOut.map (fun e => relu ((-7) - e) ^ 2)))

/-- Outlier-exposure term of `train.py` line 187:
`0.5 * -(outputs[k:].mean(1) - logsumexp(outputs[k:], dim=1)).mean()`. -/
def oeReg (outputs : List (List ℚ)) (L : List ℚ → ℚ) (k : ℕ) : ℚ :=
  (1/2) * -(listMean (List.zipWith (fun m l => m - l)
    ((outputs.drop k).map listMean) ((outputs.drop k).map L)))

/-- Per-batch training loss of `train.py` lines 178–187: the base
cross-entropy value `base` plus the regularization selected by the
`--score` string (`energy`, `OE`, anything else adds nothing). -/
def batchLoss (score : String) (base : ℚ) (outputs : List (List ℚ))
    (L : List ℚ → ℚ) (k : ℕ) : ℚ :=
  if score = "energy" then base + energyReg outputs L k
  else if score = "OE" then base + oeReg outputs L k
  else base

/-- The split index the code actually uses: `len(inputs[0])`, the length
of the leading dimension of the first input of the batch. -/
def splitPoint (inputs : List (List ℚ)) : ℕ := inputs.headI.length

/-- One training-batch loss as `main` computes it, with the split point
taken from the inputs as in lines 183–184. -/
def trainStepLoss (score : String) (base : ℚ) (inputs outputs : List (List ℚ))
    (L : List ℚ → ℚ) : ℚ :=
  batchLoss score base outputs L (splitPoint inputs)

/-- Energy term exactly as the spec sentence states it, squaring the
*mean* of the hinge values: `0.1 * (mean(relu(E_in + 25))^2 +
mean(relu(-7 - E_out))^2)` with `E = -logsumexp(logits)`. -/
def specEnergyTermClaim (outputs : List (List ℚ)) (L : List ℚ → ℚ) (k : ℕ) : ℚ :=
  let eIn := (outputs.take k).map (fun row => -(L row))
  let eOut := (outputs.drop k).map (fun row => -(L row))
  (1/10) * ((listMean (eIn.map (fun e => relu (e + 25)))) ^ 2
    + (listMean (eOut.map (fun e => relu ((-7) - e)))) ^ 2)

/-- Energy term with the square *inside* the mean (the amended claim):
`0.1 * (mean(relu(E_in + 25)^2) + mean(relu(-7 - E_out)^2))`. -/
def specEnergyTermSq (outputs : List (List ℚ)) (L : List ℚ → ℚ) (k : ℕ) : ℚ :=
  (1/10) * (listMean ((outputs.take k).map (fun row => relu (-(L row) + 25) ^ 2))
    + listMean ((outputs.drop k).map (fun row => relu ((-7) - -(L row)) ^ 2)))

/-- Outlier-exposure term as the spec states it:
`0.5 * -mean(mean_logit(aux) - logsumexp(aux))` over the auxiliary
suffix, with `mean_logit` the per-example mean over classes. -/
def specOETerm (outputs : List (List ℚ)) (L : List ℚ → ℚ) (k : ℕ) : ℚ :=
  (1/2) * -(listMean ((outputs.drop k).map (fun row => listMean row - L row)))

/-- A held-out-set batch: per-example logits and the labels. -/
structure TestBatch where
  logits : List (List ℚ)
  labels : List ℕ
deriving DecidableEq

/-- Tail-recursive helper for the arg-max index. -/
def argmaxGo : List ℚ → ℚ → ℕ → ℕ → ℕ
  | [], _, bi, _ => bi
  | y :: ys, bv, bi, i => if bv < y then argmaxGo ys y i (i + 1) else argmaxGo ys bv bi (i + 1)

/-- Index returned by `torch.max(outputs.data, 1)`: the index of the
first occurrence of the maximal logit. -/
def argmaxIdx : List ℚ → ℕ
  | [] => 0
  | x :: xs => argmaxGo xs x 0 1

/-- `(predicted == labels).sum().item()` for one batch. -/
def batchCorrect (b : TestBatch) : ℕ :=
  (List.zipWith (fun row lab => if argmaxIdx row = lab then (1 : ℕ) else 0)
    b.logits b.labels).sum

/-- The accumulators of `evaluate`'s loop: `correct`, `total`,
`avg_loss_test` before the final division. -/
structure EvalAcc where
  correct : ℕ
  total : ℕ
  sumLoss : ℚ
deriving DecidableEq

/-- One iteration of `evaluate`'s batch loop (`train.py` lines 34–41). -/
def evalStep (lossFn : TestBatch → ℚ) (acc : EvalAcc) (b : TestBatch) : EvalAcc :=
  { correct := acc.correct + batchCorrect b
    total := acc.total + b.labels.length
    sumLoss := acc.sumLoss + lossFn b }

/-- The accumulators after `evaluate`'s whole batch loop. -/
def evalFold (batches : List TestBatch) (lossFn : TestBatch → ℚ) : EvalAcc :=
  batches.foldl (evalStep lossFn) ⟨0, 0, 0⟩

/-- `avg_loss_test` after line 43: summed loss divided by
`len(test_loader.sampler)` (passed here as `samplerLen`). -/
def avgLossTest (batches : List TestBatch) (lossFn : TestBatch → ℚ)
    (samplerLen : ℕ) : ℚ :=
  (evalFold batches lossFn).sumLoss / samplerLen

/-- The value `evaluate` returns (line 44/50): `correct / total`.
The function returns only the accuracy; the averaged loss is written to
the metric sink when a writer is supplied, never returned. -/
def evaluate (batches : List TestBatch) (lossFn : TestBatch → ℚ) : ℚ :=
  ((evalFold batches lossFn).correct : ℚ) / ((evalFold batches lossFn).total : ℚ)

/-- The held-out examples of a batch list, flattened in order. -/
def testExamples : List TestBatch → List (List ℚ × ℕ)
  | [] => []
  | b :: bs => b.logits.zip b.labels ++ testExamples bs

/-- Accuracy as the spec states it: the fraction of examples whose
arg-max logit equals the label. -/
def specAccuracy (exs : List (List ℚ × ℕ)) : ℚ :=
  (((exs.filter (fun p => argmaxIdx p.1 == p.2)).length : ℚ)) / ((exs.length : ℚ))

/-- Python `str.split('.')` on a character list: `""` splits to `[""]`,
separators are every `'.'`.  `rsplit('.')` with no maxsplit produces the
same pieces, so `rsplit('.')[0]` is this list's head. -/
def splitDot : List Char → List (List Char)
  | [] => [[]]
  | c :: cs =>
    if c = '.' then [] :: splitDot cs
    else (c :: (splitDot cs).headI) :: (splitDot cs).tail

/-- `model_filename.rsplit('.')[0]` of `train.py` lines 83/85. -/
def rsplitDotHead (f : List Char) : List Char := (splitDot f).headI

/-- The checkpoint filename after the `--score` rewriting of
`train.py` lines 82–85. -/
def ckptFilename (score : String) (f : List Char) : List Char :=
  if score = "OE" then rsplitDotHead f ++ "_OE.pth".toList
  else if score = "energy" then rsplitDotHead f ++ "_energy.pth".toList
  else f

/-- `os.path.join(model_dir, model_filename)` (line 96), for a relative
filename and a directory without a trailing separator. -/
def modelFilepath (dir : List Char) (score : String) (f : List Char) : List Char :=
  dir ++ '/' :: ckptFilename score f

/-- Join pieces back with `'.'` (used only to express the spec's
"suffix before the extension" reading). -/
def dotIntercalate : List (List Char) → List Char
  | [] => []
  | [p] => p
  | p :: ps => p ++ '.' :: dotIntercalate ps

/-- Filename suffixed *before the extension*, as the spec's sentence
describes: the suffix goes between the stem (everything before the last
dot) and the original extension. -/
def specSuffixBeforeExt (f sfx : List Char) : List Char :=
  if (splitDot f).length ≤ 1 then f ++ sfx
  else dotIntercalate (splitDot f).dropLast ++ sfx ++ '.' :: (splitDot f).getLastD []

/-- The random-number state `set_random_seeds` establishes
(`train.py` lines 18–24): the torch, numpy and python PRNG seeds and
the cudnn determinism switches. -/
structure RandomState where
  torch_seed : ℕ
  cudnn_deterministic : Bool
  cudnn_benchmark : Bool
  np_seed : ℕ
  py_seed : ℕ
deriving DecidableEq

/-- `set_random_seeds(random_seed)`: every PRNG is seeded with the same
value and cudnn is forced deterministic. -/
def set_random_seeds (random_seed : ℕ) : RandomState :=
  { torch_seed := random_seed
    cudnn_deterministic := true
    cudnn_benchmark := false
    np_seed := random_seed
    py_seed := random_seed }

/-- The initial model parameters a worker builds (`train.py` lines
98–107): `set_random_seeds(random_seed)` runs first, then the model is
constructed as a deterministic function `construct` of the PRNG state.
The worker's rank takes no part in seeding or construction (device
placement does not change parameter values). -/
def workerInitialModel {P : Type} (construct : RandomState → P)
    (random_seed : ℕ) (local_rank : ℕ) : P :=
  construct (set_random_seeds random_seed)

/-- Error surfaced when `--resume` points at a missing checkpoint file
(`torch.load` raising on a nonexistent path, line 117). -/
inductive TrainError
  | checkpointNotFound
deriving DecidableEq

/-- A stored checkpoint: the device identifier it was saved under,
standing for the whole serialized state. -/
structure Ckpt where
  device : String
deriving DecidableEq

/-- The `map_location` dictionary of line 116: remap `"cuda:0"` to this
worker's device, leave anything else alone. -/
def mapLocation (local_rank : ℕ) (d : String) : String :=
  if d = "cuda:0" then "cuda:" ++ toString local_rank else d

/-- The checkpoint state as `load_state_dict(torch.load(...))` installs
it: device identifiers remapped through `mapLocation`. -/
def loadRemapped (s : Ckpt) (local_rank : ℕ) : Ckpt :=
  { device := mapLocation local_rank s.device }

/-- Observable events of one run of `main`, in program order. -/
inductive Ev
  | loadCkpt (s : Ckpt)
  | evalTest (epoch : ℕ)
  | printAccuracy
  | exitSuccess
  | saveCkpt (epoch : ℕ)
  | optStep (epoch : ℕ) (batchIdx : ℕ)
  | logTrainLoss (epoch : ℕ) (value : ℚ)
  | closeWriter
deriving DecidableEq

/-- The run configuration `main` reads from the CLI, together with the
abstract environment: the per-epoch list of per-batch loss values the
training loop accumulates, and `len(train_loader.sampler)`. -/
structure Config where
  local_rank : ℕ
  num_epochs : ℕ
  evalFlag : Bool
  resume : Bool
  epochBatchLosses : ℕ → List ℚ
  trainSamplerLen : ℕ

/-- Events of one epoch of the training loop (`train.py` lines
158–193): the rank-0 10-epoch periodic evaluate-then-save block, then
one optimizer step per batch, then the normalized train-loss write. -/
def epochTrace (cfg : Config) (e : ℕ) : List Ev :=
  (if e % 10 = 0 ∧ cfg.local_rank = 0 then [Ev.evalTest e, Ev.saveCkpt e] else [])
    ++ (List.range (cfg.epochBatchLosses e).length).map (Ev.optStep e)
    ++ [Ev.logTrainLoss e ((cfg.epochBatchLosses e).sum / (cfg.trainSamplerLen : ℚ))]

/-- Events of epochs `start, start+1, …, start+n-1` in order. -/
def epochsFrom (cfg : Config) (start : ℕ) : ℕ → List Ev
  | 0 => []
  | n + 1 => epochTrace cfg start ++ epochsFrom cfg (start + 1) n

/-- The whole training loop followed by `writer.close()`. -/
def trainTrace (cfg : Config) : List Ev :=
  epochsFrom cfg 0 cfg.num_epochs ++ [Ev.closeWriter]

/-- The `--resume` block of lines 115–117, against a file system `fs`
mapping the derived model path to the checkpoint stored there (if any):
a missing file is fatal, an existing one is loaded with device
remapping. -/
def resumeTrace (cfg : Config) (fs : Option Ckpt) : Except TrainError (List Ev) :=
  if cfg.resume then
    match fs with
    | none => Except.error TrainError.checkpointNotFound
    | some s => Except.ok [Ev.loadCkpt (loadRemapped s cfg.local_rank)]
  else Except.ok []

/-- The observable trace of `main` after setup: the resume block, then
either the `--eval` branch (evaluate, print, `exit()`) or the training
loop. -/
def mainTrace (cfg : Config) (fs : Option Ckpt) : Except TrainError (List Ev) :=
  match resumeTrace cfg fs with
  | Except.error err => Except.error err
  | Except.ok pre =>
    if cfg.evalFlag then
      Except.ok (pre ++ [Ev.evalTest 0, Ev.printAccuracy, Ev.exitSuccess])
    else
      Except.ok (pre ++ trainTrace cfg)

/-- A small concrete training run used to exercise the trace theorems:
rank 0, one epoch, one batch of loss 1, sampler length 5. -/
def cfg0 : Config :=
  { local_rank := 0
    num_epochs := 1
    evalFlag := false
    resume := false
    epochBatchLosses := fun _ => [1]
    trainSamplerLen := 5 }

/-- The trace `cfg0` produces. -/
def tr0 : List Ev :=
  [Ev.evalTest 0, Ev.saveCkpt 0, Ev.optStep 0 0, Ev.logTrainLoss 0 (1/5), Ev.closeWriter]

/-- `cfg0` with the `--eval` flag set. -/
def cfg1 : Config :=
  { cfg0 with evalFlag := true }

/-- `cfg0` with `--resume` requested. -/
def cfg2 : Config :=
  { cfg0 with resume := true }

/-- `cfg0` running as the rank-3 worker. -/
def cfg3 : Config :=
  { cfg0 with local_rank := 3 }

/-- The trace `cfg3` produces: no periodic eval/save on a non-zero
rank, but still the per-epoch train-loss write. -/
def tr3 : List Ev :=
  [Ev.optStep 0 0, Ev.logTrainLoss 0 (1/5), Ev.closeWriter]

/-- A concrete held-out set of 2 batches with 2 examples each: batch 1
has both predictions correct, batch 2 has one of two correct. -/
def exBatches : List TestBatch :=
  [⟨[[2, 1], [0, 3]], [0, 1]⟩, ⟨[[1, 2], [5, 0]], [0, 0]⟩]

/-- A concrete per-batch loss: batch 1 costs 2, batch 2 costs 1. -/
def exLoss : TestBatch → ℚ := fun b => b.logits.headI.headI

theorem energyReg_eq_sq (outputs : List (List ℚ)) (L : List ℚ → ℚ) (k : ℕ) :
    energyReg outputs L k = specEnergyTermSq outputs L k := by
  simp only [energyReg, specEnergyTermSq, List.map_map]
  have h1 : List.map ((fun e => relu (e - -25) ^ 2) ∘ (fun l => -l) ∘ L) (List.take k outputs)
      = List.map (fun row => relu (-(L row) + 25) ^ 2) (List.take k outputs) := by
    apply List.map_congr_left
    intro row _
    simp [Function.comp, sub_neg_eq_add]
  have h2 : List.map ((fun e => relu (-7 - e) ^ 2) ∘ (fun l => -l) ∘ L) (List.drop k outputs)
      = List.map (fun row => relu (-7 - -(L row)) ^ 2) (List.drop k outputs) := by
    apply List.map_congr_left
    intro row _
    simp [Function.comp]
  rw [h1, h2]

theorem listMean_zero_of_forall {xs : List ℚ} (h : ∀ x ∈ xs, x = 0) :
    listMean xs = 0 := by
  unfold listMean
  rw [List.sum_eq_zero h, zero_div]

theorem relu_eq_zero_of_nonpos {x : ℚ} (h : x ≤ 0) : relu x = 0 := by
  unfold relu
  exact max_eq_right h

theorem evalFold_spec (lossFn : TestBatch → ℚ) :
    ∀ (bs : List TestBatch) (a : EvalAcc),
      (bs.foldl (evalStep lossFn) a).correct = a.correct + (bs.map batchCorrect).sum
      ∧ (bs.foldl (evalStep lossFn) a).total = a.total + (bs.map (fun b => b.labels.length)).sum
      ∧ (bs.foldl (evalStep lossFn) a).sumLoss = a.sumLoss + (bs.map lossFn).sum := by
  intro bs
  induction bs with
  | nil => intro a; simp
  | cons b bs ih =>
    intro a
    obtain ⟨h1, h2, h3⟩ := ih (evalStep lossFn a b)
    simp only [List.foldl_cons, List.map_cons, List.sum_cons]
    rw [h1, h2, h3]
    simp only [evalStep]
    refine ⟨by omega, by omega, by ring⟩

theorem batchCorrect_eq_filter :
    ∀ (xs : List (List ℚ)) (ys : List ℕ),
      (List.zipWith (fun row lab => if argmaxIdx row = lab then (1 : ℕ) else 0) xs ys).sum
        = ((xs.zip ys).filter (fun p => argmaxIdx p.1 == p.2)).length := by
  intro xs
  induction xs with
  | nil => intro ys; simp
  | cons x xs ih =>
    intro ys
    cases ys with
    | nil => simp
    | cons y ys =>
      simp only [List.zipWith_cons_cons, List.zip_cons_cons, List.sum_cons,
        List.filter_cons]
      by_cases h : argmaxIdx x = y
      · simp only [if_pos h, List.length_cons, ih ys]
        simp [h]
        omega
      · simp [h, ih ys]

theorem evalFold_correct_eq (lossFn : TestBatch → ℚ) :
    ∀ bs : List TestBatch,
      (evalFold bs lossFn).correct
        = ((testExamples bs).filter (fun p => argmaxIdx p.1 == p.2)).length := by
  intro bs
  induction bs with
  | nil => simp [evalFold, testExamples]
  | cons b bs ih =>
    have h := evalFold_spec lossFn bs (evalStep lossFn ⟨0, 0, 0⟩ b)
    have h0 := evalFold_spec lossFn bs (⟨0, 0, 0⟩ : EvalAcc)
    simp only [evalFold, List.foldl_cons] at *
    rw [h.1]
    rw [h0.1] at ih
    simp only [evalStep, testExamples, List.filter_append, List.length_append]
    simp only [batchCorrect, batchCorrect_eq_filter] at *
    omega

theorem evalFold_total_eq (lossFn : TestBatch → ℚ)
    (bs : List TestBatch) (h : ∀ b ∈ bs, b.logits.length = b.labels.length) :
    (evalFold bs lossFn).total = (testExamples bs).length := by
  induction bs with
  | nil => simp [evalFold, testExamples]
  | cons b bs ih =>
    have hs := evalFold_spec lossFn bs (evalStep lossFn ⟨0, 0, 0⟩ b)
    have h0 := evalFold_spec lossFn bs (⟨0, 0, 0⟩ : EvalAcc)
    have ih' := ih (fun x hx => h x (List.mem_cons_of_mem _ hx))
    simp only [evalFold, List.foldl_cons] at *
    rw [hs.2.1]
    rw [h0.2.1] at ih'
    have hb := h b (List.mem_cons_self _ _)
    simp only [evalStep, testExamples, List.length_append, List.length_zip, hb,
      min_self]
    omega

theorem splitDot_ne_nil : ∀ f : List Char, splitDot f ≠ [] := by
  intro f
  cases f with
  | nil => simp [splitDot]
  | cons c cs =>
    by_cases h : c = '.' <;> simp [splitDot, h]

theorem rsplitDotHead_decomp :
    ∀ f : List Char, rsplitDotHead f = f ∨ ∃ t, f = rsplitDotHead f ++ '.' :: t := by
  intro f
  induction f with
  | nil => left; rfl
  | cons c cs ih =>
    by_cases h : c = '.'
    · right
      refine ⟨cs, ?_⟩
      simp [rsplitDotHead, splitDot, h]
    · have hhead : rsplitDotHead (c :: cs) = c :: rsplitDotHead cs := by
        simp [rsplitDotHead, splitDot, h]
      rcases ih with h1 | ⟨t, ht⟩
      · left
        rw [hhead, h1]
      · right
        refine ⟨t, ?_⟩
        rw [hhead]
        simpa using ht

theorem mem_epochsFrom (cfg : Config) (ev : Ev) :
    ∀ (n s : ℕ), ev ∈ epochsFrom cfg s n ↔ ∃ e, s ≤ e ∧ e < s + n ∧ ev ∈ epochTrace cfg e := by
  intro n
  induction n with
  | zero =>
    intro s
    simp [epochsFrom]
    omega
  | succ m ih =>
    intro s
    simp only [epochsFrom, List.mem_append, ih (s + 1)]
    constructor
    · rintro (h | ⟨e, h1, h2, h3⟩)
      · exact ⟨s, le_refl s, by omega, h⟩
      · exact ⟨e, by omega, by omega, h3⟩
    · rintro ⟨e, h1, h2, h3⟩
      by_cases he : e = s
      · left; rw [← he]; exact h3
      · right; exact ⟨e, by omega, by omega, h3⟩

theorem epochsFrom_decomp (cfg : Config) :
    ∀ (n s e : ℕ), s ≤ e → e < s + n →
      ∃ l r, epochsFrom cfg s n = l ++ epochTrace cfg e ++ r := by
  intro n
  induction n with
  | zero => intro s e h1 h2; omega
  | succ m ih =>
    intro s e h1 h2
    by_cases he : e = s
    · refine ⟨[], epochsFrom cfg (s + 1) m, ?_⟩
      rw [he]
      simp [epochsFrom]
    · obtain ⟨l, r, hlr⟩ := ih (s + 1) e (by omega) (by omega)
      refine ⟨epochTrace cfg s ++ l, r, ?_⟩
      simp [epochsFrom, hlr]

theorem saveCkpt_mem_epochTrace (cfg : Config) (e e' : ℕ) :
    Ev.saveCkpt e ∈ epochTrace cfg e' ↔ e = e' ∧ e' % 10 = 0 ∧ cfg.local_rank = 0 := by
  by_cases h : e' % 10 = 0 ∧ cfg.local_rank = 0 <;> simp [epochTrace, h]

theorem evalTest_mem_epochTrace (cfg : Config) (e e' : ℕ) :
    Ev.evalTest e ∈ epochTrace cfg e' ↔ e = e' ∧ e' % 10 = 0 ∧ cfg.local_rank = 0 := by
  by_cases h : e' % 10 = 0 ∧ cfg.local_rank = 0 <;> simp [epochTrace, h]

theorem logTrainLoss_mem_epochTrace (cfg : Config) (e e' : ℕ) (v : ℚ) :
    Ev.logTrainLoss e v ∈ epochTrace cfg e' ↔
      e = e' ∧ v = (cfg.epochBatchLosses e').sum / (cfg.trainSamplerLen : ℚ) := by
  by_cases h : e' % 10 = 0 ∧ cfg.local_rank = 0 <;> simp [epochTrace, h, and_comm]

theorem optStep_not_mem_epochTrace (cfg : Config) (e e' i : ℕ)
    (h : (cfg.epochBatchLosses e').length = 0) : Ev.optStep e i ∉ epochTrace cfg e' := by
  by_cases hc : e' % 10 = 0 ∧ cfg.local_rank = 0 <;> simp [epochTrace, hc, h]

theorem mainTrace_ok_train (cfg : Config) (fs : Option Ckpt) (tr : List Ev)
    (heval : cfg.evalFlag = false) (htr : mainTrace cfg fs = Except.ok tr) :
    ∃ pre, (pre = [] ∨ ∃ s, pre = [Ev.loadCkpt s]) ∧ tr = pre ++ trainTrace cfg := by
  unfold mainTrace resumeTrace at htr
  by_cases hr : cfg.resume
  · cases fs with
    | none => simp [hr] at htr
    | some s =>
      simp [hr, heval] at htr
      exact ⟨[Ev.loadCkpt (loadRemapped s cfg.local_rank)],
        Or.inr ⟨loadRemapped s cfg.local_rank, rfl⟩, htr.symm⟩
  · simp [hr, heval] at htr
    exact ⟨[], Or.inl rfl, htr.symm⟩

theorem mainTrace_ok_eval (cfg : Config) (fs : Option Ckpt) (tr : List Ev)
    (heval : cfg.evalFlag = true) (htr : mainTrace cfg fs = Except.ok tr) :
    ∃ pre, (pre = [] ∨ ∃ s, pre = [Ev.loadCkpt s]) ∧
      tr = pre ++ [Ev.evalTest 0, Ev.printAccuracy, Ev.exitSuccess] := by
  unfold mainTrace resumeTrace at htr
  by_cases hr : cfg.resume
  · cases fs with
    | none => simp [hr] at htr
    | some s =>
      simp [hr, heval] at htr
      exact ⟨[Ev.loadCkpt (loadRemapped s cfg.local_rank)],
        Or.inr ⟨loadRemapped s cfg.local_rank, rfl⟩, htr.symm⟩
  · simp [hr, heval] at htr
    exact ⟨[], Or.inl rfl, htr.symm⟩

theorem energyReg_eq_zero (outputs : List (List ℚ)) (L : List ℚ → ℚ) (k : ℕ)
    (hin : ∀ row ∈ outputs.take k, -(L row) ≤ -25)
    (hout : ∀ row ∈ outputs.drop k, (-7 : ℚ) ≤ -(L row)) :
    energyReg outputs L k = 0 := by
  rw [energyReg_eq_sq]
  unfold specEnergyTermSq
  rw [listMean_zero_of_forall, listMean_zero_of_forall]
  · ring
  · intro x hx
    rcases List.mem_map.mp hx with ⟨row, hrow, rfl⟩
    rw [relu_eq_zero_of_nonpos (by linarith [hout row hrow])]
    ring
  · intro x hx
    rcases List.mem_map.mp hx with ⟨row, hrow, rfl⟩
    rw [relu_eq_zero_of_nonpos (by linarith [hin row hrow])]
    ring

/-- C1 (counterexample): the energy term the code adds is *not*
`0.1 * (mean(relu(E_in + 25))^2 + mean(relu(-7 - E_out))^2)` as the
claim's formula reads (square applied to the mean).  With one-class
logit rows `[[0], [50], [7]]` (on which the abstracted log-sum-exp
`List.sum` coincides with the real one), split point 2 and base loss 0,
the code adds `0.1 * mean([625, 0]) = 31.25` while the claim's formula
gives `0.1 * mean([25, 0])^2 = 15.625`. -/
theorem energy_term_claim_counterexample :
    batchLoss "energy" 0 [[0], [50], [7]] List.sum 2
      ≠ 0 + specEnergyTermClaim [[0], [50], [7]] List.sum 2 := by
  have h1 : batchLoss "energy" 0 [[0], [50], [7]] List.sum 2 = 125 / 4 := by
    rw [batchLoss, if_pos rfl]
    norm_num [energyReg, listMean, relu, max_def]
  have h2 : specEnergyTermClaim [[0], [50], [7]] List.sum 2 = 125 / 8 := by
    norm_num [specEnergyTermClaim, listMean, relu, max_def]
  rw [h1, h2]
  norm_num

/-- C1 (amended): with the `energy` score, the term added to the base
loss equals `0.1 * (mean(relu(E_in + 25)^2) + mean(relu(-7 - E_out)^2))`
— the squares taken *inside* the means — where `E = -L(row)` for the
per-row log-sum-exp `L`, `E_in` ranges over the prefix of length `k` of
the logit batch and `E_out` over the suffix; and the term is 0 (the loss
is the base loss alone) when every in-distribution energy is at most
-25 and every auxiliary energy is at least -7. -/
theorem energy_regularization_term (base : ℚ) (outputs : List (List ℚ))
    (L : List ℚ → ℚ) (k : ℕ) :
    batchLoss "energy" base outputs L k = base + specEnergyTermSq outputs L k ∧
    ((∀ row ∈ outputs.take k, -(L row) ≤ -25) →
      (∀ row ∈ outputs.drop k, (-7 : ℚ) ≤ -(L row)) →
      batchLoss "energy" base outputs L k = base) := by
  constructor
  · simp [batchLoss, energyReg_eq_sq]
  · intro hin hout
    simp [batchLoss, energyReg_eq_zero outputs L k hin hout]

/-- C1 (witness): a batch whose energies already sit in the target
bands (`E_in = -30 ≤ -25`, `E_out = -5 ≥ -7`) leaves the loss at its
base value 3. -/
theorem energy_regularization_term_witness :
    batchLoss "energy" 3 [[30], [5]] List.sum 1
        = 3 + specEnergyTermSq [[30], [5]] List.sum 1 ∧
    batchLoss "energy" 3 [[30], [5]] List.sum 1 = 3 :=
  ⟨(energy_regularization_term 3 [[30], [5]] List.sum 1).1,
    (energy_regularization_term 3 [[30], [5]] List.sum 1).2
      (by
        intro row hrow
        simp only [List.take, List.mem_singleton] at hrow
        subst hrow
        norm_num)
      (by
        intro row hrow
        simp only [List.drop, List.mem_singleton] at hrow
        subst hrow
        norm_num)⟩

/-- C5: with the `OE` score, the term added to the base loss is exactly
`0.5 * -mean(mean_logit(aux) - logsumexp(aux))` over the auxiliary
suffix of the logit batch, `mean_logit` averaging each row over the
class dimension. -/
theorem oe_regularization_term (base : ℚ) (outputs : List (List ℚ))
    (L : List ℚ → ℚ) (k : ℕ) :
    batchLoss "OE" base outputs L k = base + specOETerm outputs L k := by
  have h : oeReg outputs L k = specOETerm outputs L k := by
    unfold oeReg specOETerm
    rw [List.zipWith_map, List.zipWith_same]
  simp [batchLoss, h]

/-- C10: any `--score` value other than the exact strings `"energy"`
and `"OE"` (in particular the default `"None"`) adds no regularization
term to any batch's loss and leaves the checkpoint filename untouched. -/
theorem unrecognized_score_no_reg (score : String)
    (h1 : score ≠ "energy") (h2 : score ≠ "OE") :
    (∀ (base : ℚ) (inputs outputs : List (List ℚ)) (L : List ℚ → ℚ),
      trainStepLoss score base inputs outputs L = base) ∧
    (∀ f : List Char, ckptFilename score f = f) := by
  constructor
  · intro base inputs outputs L
    simp [trainStepLoss, batchLoss, h1, h2]
  · intro f
    simp [ckptFilename, h1, h2]

/-- C10 (witness): the default score string `"None"` at a concrete
batch and filename. -/
theorem unrecognized_score_no_reg_witness :
    trainStepLoss "None" 7 [[1, 2]] [[3], [4]] List.sum = 7 ∧
    ckptFilename "None" "resnet_distributed.pth".toList
      = "resnet_distributed.pth".toList :=
  ⟨(unrecognized_score_no_reg "None" (by decide) (by decide)).1 7 [[1, 2]] [[3], [4]] List.sum,
    (unrecognized_score_no_reg "None" (by decide) (by decide)).2 "resnet_distributed.pth".toList⟩

/-- C8 (counterexample): the suffix is *not* inserted before the
extension for every configured filename: `rsplit('.')` truncates at the
first dot and hard-codes a `.pth` extension, so `a.b.pth` becomes
`a_energy.pth`, not `a.b_energy.pth`. -/
theorem ckpt_filename_counterexample :
    ckptFilename "energy" "a.b.pth".toList
      ≠ specSuffixBeforeExt "a.b.pth".toList "_energy".toList := by
  decide

/-- C8 (amended): with score `energy` (resp. `OE`) the checkpoint is
written at `<model_dir>/<name>` where `name` is the configured filename
truncated at its *first* dot and suffixed with `_energy.pth` (resp.
`_OE.pth`); for conventional names of the form `stem.pth` with a single
dot this coincides with suffixing before the extension.  For any fixed
configured filename the three modes still give pairwise distinct
filenames and distinct full paths, so checkpoints trained under
different objectives are never silently cross-loaded. -/
theorem ckpt_filename_spec (dir f : List Char) :
    ckptFilename "energy" f = rsplitDotHead f ++ "_energy.pth".toList ∧
    ckptFilename "OE" f = rsplitDotHead f ++ "_OE.pth".toList ∧
    ckptFilename "None" f = f ∧
    ckptFilename "energy" f ≠ ckptFilename "OE" f ∧
    ckptFilename "energy" f ≠ ckptFilename "None" f ∧
    ckptFilename "OE" f ≠ ckptFilename "None" f ∧
    modelFilepath dir "energy" f ≠ modelFilepath dir "OE" f := by
  have e1 : ckptFilename "energy" f = rsplitDotHead f ++ "_energy.pth".toList := by
    simp [ckptFilename]
  have e2 : ckptFilename "OE" f = rsplitDotHead f ++ "_OE.pth".toList := by
    simp [ckptFilename]
  have e3 : ckptFilename "None" f = f := by
    simp [ckptFilename]
  have n1 : ckptFilename "energy" f ≠ ckptFilename "OE" f := by
    rw [e1, e2]
    intro h
    exact absurd (List.append_cancel_left h) (by decide)
  have ne_gen : ∀ sfx : List Char, sfx.length ≠ 0 → sfx.headI = '_' →
      rsplitDotHead f ++ sfx ≠ f := by
    intro sfx hlen hhead h
    rcases rsplitDotHead_decomp f with h1 | ⟨t, h1⟩
    · have hl := congrArg List.length h
      rw [List.length_append, h1] at hl
      omega
    · have h2 := List.append_cancel_left (h.trans h1)
      have h3 : sfx.headI = '.' := by rw [h2]; rfl
      rw [hhead] at h3
      exact absurd h3 (by decide)
  have n2 : ckptFilename "energy" f ≠ ckptFilename "None" f := by
    rw [e1, e3]
    exact ne_gen _ (by decide) (by decide)
  have n3 : ckptFilename "OE" f ≠ ckptFilename "None" f := by
    rw [e2, e3]
    exact ne_gen _ (by decide) (by decide)
  have n4 : modelFilepath dir "energy" f ≠ modelFilepath dir "OE" f := by
    intro h
    unfold modelFilepath at h
    have h2 := List.append_cancel_left h
    simp only [List.cons.injEq] at h2
    exact n1 h2.2
  exact ⟨e1, e2, e3, n1, n2, n3, n4⟩

/-- C2 (counterexample): on a test set of 2 batches with 4 examples in
total and summed per-batch loss 3, `evaluate`'s averaged loss is
`3 / 4` — the summed loss divided by `len(test_loader.sampler)` (the
example count 4) — and not `3 / 2`, the summed loss divided by the
number of batches the claim asserts. -/
theorem evaluate_avg_loss_counterexample :
    (evalFold exBatches exLoss).total = 4 ∧
    avgLossTest exBatches exLoss 4 = 3 / 4 ∧
    (exBatches.map exLoss).sum / (exBatches.length : ℚ) = 3 / 2 ∧
    avgLossTest exBatches exLoss 4 ≠ (exBatches.map exLoss).sum / (exBatches.length : ℚ) := by
  have hsum : (evalFold exBatches exLoss).sumLoss = 3 := by
    simp [evalFold, exBatches, exLoss, evalStep]
    norm_num
  have h2 : avgLossTest exBatches exLoss 4 = 3 / 4 := by
    unfold avgLossTest
    rw [hsum]
    norm_num
  have h3 : (exBatches.map exLoss).sum / (exBatches.length : ℚ) = 3 / 2 := by
    simp [exBatches, exLoss]
    norm_num
  refine ⟨by decide, h2, h3, ?_⟩
  rw [h2, h3]
  norm_num

/-- C2 (amended): `evaluate` returns only the accuracy, which equals
(number of examples whose arg-max logit equals the label) / (total
number of examples); the averaged loss it computes (and writes to the
metric sink when a writer is passed) is the summed per-batch loss
divided by the sampler length — the test set's example count — not by
the number of batches, and it is not returned. -/
theorem evaluate_aggregation (bs : List TestBatch) (lossFn : TestBatch → ℚ)
    (samplerLen : ℕ) (h : ∀ b ∈ bs, b.logits.length = b.labels.length) :
    evaluate bs lossFn = specAccuracy (testExamples bs) ∧
    avgLossTest bs lossFn samplerLen = (bs.map lossFn).sum / (samplerLen : ℚ) := by
  constructor
  · unfold evaluate specAccuracy
    rw [evalFold_correct_eq lossFn bs, evalFold_total_eq lossFn bs h]
  · unfold avgLossTest evalFold
    rw [(evalFold_spec lossFn bs ⟨0, 0, 0⟩).2.2]
    norm_num

/-- C2 (witness): the amended aggregation contract at the concrete
two-batch test set (sampler length 4 = its example count). -/
theorem evaluate_aggregation_witness :
    evaluate exBatches exLoss = specAccuracy (testExamples exBatches) ∧
    avgLossTest exBatches exLoss 4 = (exBatches.map exLoss).sum / ((4 : ℕ) : ℚ) :=
  evaluate_aggregation exBatches exLoss 4 (by decide)

/-- C9: `set_random_seeds` seeds the torch, numpy and python PRNGs with
the one configured seed and forces cudnn into deterministic mode, and a
worker's initial parameters are a function of that seeded state alone:
any two workers of any ranks, in any two runs configured with the same
seed, construct identical initial parameters for every deterministic
construction procedure. -/
theorem seeded_init_determinism {P : Type} (construct : RandomState → P)
    (seed1 seed2 rank1 rank2 : ℕ) (h : seed1 = seed2) :
    workerInitialModel construct seed1 rank1 = workerInitialModel construct seed2 rank2 ∧
    (set_random_seeds seed1).torch_seed = seed1 ∧
    (set_random_seeds seed1).np_seed = seed1 ∧
    (set_random_seeds seed1).py_seed = seed1 ∧
    (set_random_seeds seed1).cudnn_deterministic = true ∧
    (set_random_seeds seed1).cudnn_benchmark = false := by
  subst h
  exact ⟨rfl, rfl, rfl, rfl, rfl, rfl⟩

/-- C9 (witness): seed 0 on ranks 0 and 1, reading back the torch seed
as the constructed "parameters". -/
theorem seeded_init_determinism_witness :
    workerInitialModel RandomState.torch_seed 0 0
        = workerInitialModel RandomState.torch_seed 0 1 ∧
    (set_random_seeds 0).torch_seed = 0 ∧
    (set_random_seeds 0).np_seed = 0 ∧
    (set_random_seeds 0).py_seed = 0 ∧
    (set_random_seeds 0).cudnn_deterministic = true ∧
    (set_random_seeds 0).cudnn_benchmark = false :=
  seeded_init_determinism RandomState.torch_seed 0 0 0 1 rfl

/-- C3: in a training run (no `--eval`), for every epoch `e` below
`num_epochs`, a checkpoint save happens in epoch `e` iff `e mod 10 = 0`
and this worker has rank 0; in that case the Evaluator runs immediately
before the save; otherwise neither a checkpoint write nor a periodic
evaluation occurs in epoch `e`, on any worker. -/
theorem periodic_checkpoint_schedule (cfg : Config) (fs : Option Ckpt) (tr : List Ev)
    (heval : cfg.evalFlag = false) (htr : mainTrace cfg fs = Except.ok tr)
    (e : ℕ) (he : e < cfg.num_epochs) :
    (Ev.saveCkpt e ∈ tr ↔ e % 10 = 0 ∧ cfg.local_rank = 0) ∧
    (e % 10 = 0 → cfg.local_rank = 0 →
      ∃ l r, tr = l ++ Ev.evalTest e :: Ev.saveCkpt e :: r) ∧
    (¬(e % 10 = 0 ∧ cfg.local_rank = 0) → Ev.evalTest e ∉ tr) := by
  obtain ⟨pre, hpre, htr'⟩ := mainTrace_ok_train cfg fs tr heval htr
  subst htr'
  have hpre_save : ∀ e', Ev.saveCkpt e' ∉ pre := by
    rcases hpre with rfl | ⟨s, rfl⟩ <;> simp
  have hpre_eval : ∀ e', Ev.evalTest e' ∉ pre := by
    rcases hpre with rfl | ⟨s, rfl⟩ <;> simp
  refine ⟨?_, ?_, ?_⟩
  · rw [List.mem_append]
    constructor
    · rintro (h | h)
      · exact absurd h (hpre_save e)
      · unfold trainTrace at h
        rw [List.mem_append] at h
        rcases h with h | h
        · rw [mem_epochsFrom] at h
          obtain ⟨e', _, _, hm⟩ := h
          rw [saveCkpt_mem_epochTrace] at hm
          obtain ⟨rfl, hc⟩ := hm
          exact hc
        · simp at h
    · intro hc
      right
      unfold trainTrace
      rw [List.mem_append]
      left
      rw [mem_epochsFrom]
      exact ⟨e, Nat.zero_le e, by omega, (saveCkpt_mem_epochTrace cfg e e).mpr ⟨rfl, hc⟩⟩
  · intro h10 hr0
    obtain ⟨l, r, hlr⟩ := epochsFrom_decomp cfg cfg.num_epochs 0 e (Nat.zero_le e) (by omega)
    have het : epochTrace cfg e
        = Ev.evalTest e :: Ev.saveCkpt e ::
          ((List.range (cfg.epochBatchLosses e).length).map (Ev.optStep e)
            ++ [Ev.logTrainLoss e ((cfg.epochBatchLosses e).sum / (cfg.trainSamplerLen : ℚ))]) := by
      simp [epochTrace, h10, hr0]
    refine ⟨pre ++ l,
      ((List.range (cfg.epochBatchLosses e).length).map (Ev.optStep e)
        ++ [Ev.logTrainLoss e ((cfg.epochBatchLosses e).sum / (cfg.trainSamplerLen : ℚ))])
        ++ r ++ [Ev.closeWriter], ?_⟩
    unfold trainTrace
    rw [hlr, het]
    simp [List.append_assoc]
  · intro hc h
    rw [List.mem_append] at h
    rcases h with h | h
    · exact hpre_eval e h
    · unfold trainTrace at h
      rw [List.mem_append] at h
      rcases h with h | h
      · rw [mem_epochsFrom] at h
        obtain ⟨e', _, _, hm⟩ := h
        rw [evalTest_mem_epochTrace] at hm
        obtain ⟨rfl, hc'⟩ := hm
        exact hc hc'
      · simp at h

/-- C3 (witness): the one-epoch rank-0 run `cfg0`: epoch 0 saves, the
evaluation is adjacent before the save. -/
theorem periodic_checkpoint_schedule_witness :
    (Ev.saveCkpt 0 ∈ tr0 ↔ 0 % 10 = 0 ∧ cfg0.local_rank = 0) ∧
    (0 % 10 = 0 → cfg0.local_rank = 0 →
      ∃ l r, tr0 = l ++ Ev.evalTest 0 :: Ev.saveCkpt 0 :: r) ∧
    (¬(0 % 10 = 0 ∧ cfg0.local_rank = 0) → Ev.evalTest 0 ∉ tr0) :=
  periodic_checkpoint_schedule cfg0 none tr0 rfl
    (by
      simp [mainTrace, resumeTrace, trainTrace, epochsFrom, epochTrace, cfg0, tr0, List.range_succ, List.range_zero])
    0 (by decide)

/-- C4: with `--eval` set, the run performs no optimizer step, no
checkpoint write and no train-loss logging: after the optional resume
load it evaluates, prints the accuracy, and exits successfully, never
entering the training loop. -/
theorem eval_mode_gating (cfg : Config) (fs : Option Ckpt) (tr : List Ev)
    (heval : cfg.evalFlag = true) (htr : mainTrace cfg fs = Except.ok tr) :
    (∀ e i, Ev.optStep e i ∉ tr) ∧
    (∀ e, Ev.saveCkpt e ∉ tr) ∧
    (∀ e v, Ev.logTrainLoss e v ∉ tr) ∧
    (∃ pre, tr = pre ++ [Ev.evalTest 0, Ev.printAccuracy, Ev.exitSuccess]) := by
  obtain ⟨pre, hpre, htr'⟩ := mainTrace_ok_eval cfg fs tr heval htr
  subst htr'
  rcases hpre with rfl | ⟨s, rfl⟩
  · exact ⟨by simp, by simp, by simp, [], rfl⟩
  · exact ⟨by simp, by simp, by simp, [Ev.loadCkpt s], rfl⟩

/-- C4 (witness): the `--eval` run `cfg1` against an absent checkpoint
file. -/
theorem eval_mode_gating_witness :
    (∀ e i, Ev.optStep e i ∉ [Ev.evalTest 0, Ev.printAccuracy, Ev.exitSuccess]) ∧
    (∀ e, Ev.saveCkpt e ∉ [Ev.evalTest 0, Ev.printAccuracy, Ev.exitSuccess]) ∧
    (∀ e v, Ev.logTrainLoss e v ∉ [Ev.evalTest 0, Ev.printAccuracy, Ev.exitSuccess]) ∧
    (∃ pre, [Ev.evalTest 0, Ev.printAccuracy, Ev.exitSuccess]
      = pre ++ [Ev.evalTest 0, Ev.printAccuracy, Ev.exitSuccess]) :=
  eval_mode_gating cfg1 none [Ev.evalTest 0, Ev.printAccuracy, Ev.exitSuccess] rfl
    (by simp [mainTrace, resumeTrace, cfg1, cfg0])

/-- C6: in a training run, at the end of every epoch and on every
worker (any rank), the accumulated per-batch loss divided by the length
of the per-worker distributed sampler is written to the metric sink
tagged with that epoch's index; the write is the last event of the
epoch. -/
theorem epoch_loss_logging (cfg : Config) (fs : Option Ckpt) (tr : List Ev)
    (heval : cfg.evalFlag = false) (htr : mainTrace cfg fs = Except.ok tr)
    (e : ℕ) (he : e < cfg.num_epochs) :
    Ev.logTrainLoss e ((cfg.epochBatchLosses e).sum / (cfg.trainSamplerLen : ℚ)) ∈ tr ∧
    (epochTrace cfg e).getLast?
      = some (Ev.logTrainLoss e ((cfg.epochBatchLosses e).sum / (cfg.trainSamplerLen : ℚ))) := by
  obtain ⟨pre, hpre, htr'⟩ := mainTrace_ok_train cfg fs tr heval htr
  subst htr'
  constructor
  · rw [List.mem_append]
    right
    unfold trainTrace
    rw [List.mem_append]
    left
    rw [mem_epochsFrom]
    exact ⟨e, Nat.zero_le e, by omega, (logTrainLoss_mem_epochTrace cfg e e _).mpr ⟨rfl, rfl⟩⟩
  · unfold epochTrace
    rw [List.getLast?_concat]

/-- C6 (witness): the rank-3 run `cfg3` still logs epoch 0's normalized
loss `1/5`. -/
theorem epoch_loss_logging_witness :
    Ev.logTrainLoss 0 ((cfg3.epochBatchLosses 0).sum / (cfg3.trainSamplerLen : ℚ)) ∈ tr3 ∧
    (epochTrace cfg3 0).getLast?
      = some (Ev.logTrainLoss 0 ((cfg3.epochBatchLosses 0).sum / (cfg3.trainSamplerLen : ℚ))) :=
  epoch_loss_logging cfg3 none tr3 rfl
    (by simp [mainTrace, resumeTrace, trainTrace, epochsFrom, epochTrace, cfg3, cfg0, tr3, List.range_succ, List.range_zero])
    0 (by decide)

/-- C7: when `--resume` is requested, a missing checkpoint file aborts
the run with `checkpointNotFound` before any event is emitted (training
never starts with fresh weights), while an existing checkpoint is
loaded — with the stored `"cuda:0"` device identifier remapped to this
worker's local device — as the very first event, before any training. -/
theorem resume_checkpoint_handling (cfg : Config) (s : Ckpt) (hres : cfg.resume = true) :
    mainTrace cfg none = Except.error TrainError.checkpointNotFound ∧
    (∃ tr, mainTrace cfg (some s) = Except.ok tr ∧
      tr.head? = some (Ev.loadCkpt (loadRemapped s cfg.local_rank)) ∧
      (s.device = "cuda:0" →
        (loadRemapped s cfg.local_rank).device = "cuda:" ++ toString cfg.local_rank)) := by
  constructor
  · simp [mainTrace, resumeTrace, hres]
  · by_cases hev : cfg.evalFlag
    · refine ⟨Ev.loadCkpt (loadRemapped s cfg.local_rank)
          :: [Ev.evalTest 0, Ev.printAccuracy, Ev.exitSuccess], ?_, rfl, ?_⟩
      · simp [mainTrace, resumeTrace, hres, hev]
      · intro hd
        simp [loadRemapped, mapLocation, hd]
    · refine ⟨Ev.loadCkpt (loadRemapped s cfg.local_rank) :: trainTrace cfg, ?_, rfl, ?_⟩
      · simp [mainTrace, resumeTrace, hres, hev]
      · intro hd
        simp [loadRemapped, mapLocation, hd]

/-- C7 (witness): the resuming run `cfg2` with a checkpoint stored
under `"cuda:0"`. -/
theorem resume_checkpoint_handling_witness :
    mainTrace cfg2 none = Except.error TrainError.checkpointNotFound ∧
    (∃ tr, mainTrace cfg2 (some ⟨"cuda:0"⟩) = Except.ok tr ∧
      tr.head? = some (Ev.loadCkpt (loadRemapped ⟨"cuda:0"⟩ cfg2.local_rank)) ∧
      (Ckpt.device ⟨"cuda:0"⟩ = "cuda:0" →
        (loadRemapped ⟨"cuda:0"⟩ cfg2.local_rank).device = "cuda:" ++ toString cfg2.local_rank)) :=
  resume_checkpoint_handling cfg2 ⟨"cuda:0"⟩ rfl
